import Mathlib

/-!
Verification development for the DetailedDomain loader
(src/dataloader.py and src/faster_indexing.py).

The input file is modelled as a list of bytes (List Nat); the newline
byte is 10.  Byte offsets are natural numbers.  Calls into the external
storage engine (DuckDB) and the operating system are modelled by
explicit success/failure oracles, since the engine is an external
collaborator of the program.
-/

namespace DomainLoader

/-- The newline byte, b'\n'. -/
def newline : Nat := 10

/-- Inner while-loop of get_file_chunks (dataloader.py lines 79-83):
starting at absolute position pos, with l the bytes of the file from
pos on, read one byte at a time, advancing the cursor, and stop just
past the first newline read, or at end of file. -/
def scanFrom : List Nat → Nat → Nat
  | [], pos => pos
  | b :: rest, pos => if b = newline then pos + 1 else scanFrom rest (pos + 1)

/-- The scan of dataloader.py lines 78-83 at absolute position pos of the
file: f.seek(end_pos) then read byte-by-byte until past a newline. -/
def scanToNewline (file : List Nat) (pos : Nat) : Nat :=
  scanFrom (file.drop pos) pos

/-- End offset of the chunk that starts at start (dataloader.py lines
74-83): tentative end is min (start + chunk_bytes) file_size; if that is
strictly inside the file, scan forward to just past the next newline. -/
def chunkEnd (file : List Nat) (cb start : Nat) : Nat :=
  if min (start + cb) file.length < file.length then
    scanToNewline file (min (start + cb) file.length)
  else
    min (start + cb) file.length

/-- Outer while-loop of get_file_chunks (dataloader.py lines 73-86),
written with an explicit fuel argument; fuel at least
file.length - start is enough, because the cursor strictly advances on
every iteration (proved below). -/
def chunksLoop (file : List Nat) (cb : Nat) : Nat → Nat → List (Nat × Nat)
  | 0, _ => []
  | fuel + 1, start =>
    if start < file.length then
      (start, chunkEnd file cb start) :: chunksLoop file cb fuel (chunkEnd file cb start)
    else []

/-- The chunk list produced from a given start offset. -/
def chunksFrom (file : List Nat) (cb start : Nat) : List (Nat × Nat) :=
  chunksLoop file cb (file.length - start) start

/-- Derived chunk byte width (dataloader.py lines 67-68):
int(file_size / total_rows * chunk_size).  The source computes this
with float arithmetic; it is modelled here by the exact rational value
truncated toward zero, which for nonnegative operands is floor
division. -/
def chunkBytes (fileSize total_rows chunk_size : Nat) : Nat :=
  fileSize * chunk_size / total_rows

/-- get_file_chunks (dataloader.py lines 64-88): split the file into
processing chunks based on byte positions. -/
def get_file_chunks (file : List Nat) (total_rows chunk_size : Nat) : List (Nat × Nat) :=
  chunksFrom file (chunkBytes file.length total_rows chunk_size) 0

/-- The bytes of the file covered by a chunk (start, end):
file[start:end]. -/
def slice (file : List Nat) (c : Nat × Nat) : List Nat :=
  (file.drop c.1).take (c.2 - c.1)

/-- Decidable check that a chunk list, read left to right, exactly
covers the half-open interval from start to file.length: each chunk
begins where the previous ended, is nonempty (ascending), and the last
chunk ends at file.length.  This encodes contiguity, disjointness and
exact coverage at once. -/
def coversExactlyFrom (file : List Nat) : Nat → List (Nat × Nat) → Bool
  | start, [] => start == file.length
  | start, c :: rest =>
      (c.1 == start) && decide (c.1 < c.2) && coversExactlyFrom file c.2 rest

/-- Row counting of dataloader.py lines 132-135: rows = data.count(b'\n'),
plus one when data[-1:] != b'\n' (for empty data the slice b'' also
differs from b'\n', so the increment happens). -/
def countRows (data : List Nat) : Nat :=
  data.count newline + (if data.getLast? = some newline then 0 else 1)

/-- Number of records the engine's bulk CSV load parses from the chunk
bytes, under the input contract of one record per line (spec section 6):
one record per newline, plus a trailing record when the data does not
end in a newline; an empty input holds no records. -/
def csvRecordCount (data : List Nat) : Nat :=
  if data = [] then 0 else countRows data

/-- Result of one Chunk Loader call (dataloader.py lines 90-155):
rows is the returned rows_in_chunk, storePath identifies the per-chunk
temporary database temp_dir/chunk_{id}.duckdb by its chunk id,
storeRows is the number of rows present in that temporary database
after the call, and scratchExists records whether the scratch csv file
temp_dir/chunk_{id}.csv still exists when the call returns. -/
structure ChunkResult where
  rows : Nat
  storePath : Nat
  storeRows : Nat
  scratchExists : Bool
deriving DecidableEq

/-- process_chunk (dataloader.py lines 90-155).  The three Booleans are
success oracles for the externally observable fallible steps inside its
try block: reading the byte range, writing the scratch file, and the
engine's COPY into the temporary database.  On any failure the except
clause sets rows_in_chunk to 0; the finally clause always removes the
scratch file (swallowing the error when it does not exist); the pair
(rows_in_chunk, temp_db_path) is returned on every path. -/
def process_chunk (file : List Nat) (chunkId : Nat) (c : Nat × Nat)
    (readOk writeOk copyOk : Bool) : ChunkResult :=
  if readOk then
    if writeOk then
      if copyOk then
        { rows := countRows (slice file c), storePath := chunkId,
          storeRows := csvRecordCount (slice file c), scratchExists := false }
      else
        { rows := 0, storePath := chunkId, storeRows := 0, scratchExists := false }
    else
      { rows := 0, storePath := chunkId, storeRows := 0, scratchExists := false }
  else
    { rows := 0, storePath := chunkId, storeRows := 0, scratchExists := false }

/-- Collection loop of main (dataloader.py lines 289-293): a result's
store path is appended to temp_dbs only when its rows are positive. -/
def collectTempDbs (results : List ChunkResult) : List ChunkResult :=
  results.filter (fun r => 0 < r.rows)

/-- One intermediate store as seen by the Store Merger
(dataloader.py lines 157-210): whether its file exists, its on-disk
size, the number of rows in its domains table, and success oracles for
the five externally fallible steps taken on it (ATTACH, COUNT, INSERT,
DETACH, os.remove). -/
structure TempStore where
  present : Bool
  size : Nat
  rows : Nat
  attachOk : Bool
  countOk : Bool
  insertOk : Bool
  detachOk : Bool
  removeOk : Bool
deriving DecidableEq

/-- What the merge loop body did with one store: how many rows it added
to the running total, whether the store was successfully attached, and
whether its backing file was deleted. -/
structure MergeOutcome where
  rowsAdded : Nat
  attached : Bool
  deleted : Bool
deriving DecidableEq

/-- Minimum-viability threshold of dataloader.py line 183: stores whose
file is missing or smaller than 1000 bytes are skipped. -/
def viability_threshold : Nat := 1000

/-- Loop body of merge_temp_databases (dataloader.py lines 180-207).
The skip test precedes the ATTACH; the running total is increased only
after a successful INSERT (line 198 follows line 195); DETACH and
os.remove follow the total update, so a failure in either leaves the
rows counted but the file in place; every failure is caught by the
per-store except clause and the loop moves to the next store. -/
def mergeStore (s : TempStore) : MergeOutcome :=
  if s.present = false ∨ s.size < viability_threshold then
    { rowsAdded := 0, attached := false, deleted := false }
  else if s.attachOk = false then
    { rowsAdded := 0, attached := false, deleted := false }
  else if s.countOk = false then
    { rowsAdded := 0, attached := true, deleted := false }
  else if s.insertOk = false then
    { rowsAdded := 0, attached := true, deleted := false }
  else if s.detachOk = false then
    { rowsAdded := s.rows, attached := true, deleted := false }
  else if s.removeOk = false then
    { rowsAdded := s.rows, attached := true, deleted := false }
  else
    { rowsAdded := s.rows, attached := true, deleted := true }

/-- merge_temp_databases (dataloader.py lines 157-210): fold the loop
body over the supplied stores and return the accumulated total_rows. -/
def merge_temp_databases (stores : List TempStore) : Nat :=
  (stores.map (fun s => (mergeStore s).rowsAdded)).sum

/-- Chunked path of main (dataloader.py lines 265-293) with every
loader oracle successful: every chunk is processed with its id. -/
def pipelineResults (file : List Nat) (total_rows chunk_size : Nat) : List ChunkResult :=
  (get_file_chunks file total_rows chunk_size).enum.map
    (fun p => process_chunk file p.1 p.2 true true true)

/-- rows_processed accumulation of main (dataloader.py line 290). -/
def rows_processed (results : List ChunkResult) : Nat :=
  (results.map (fun r => r.rows)).sum

/-- The stores handed to the Store Merger by main, one per collected
result: the temporary database exists, its on-disk size is supplied by
the engine (modelled by the function size_of from chunk id to size),
its row count is what the loader's COPY put there, and the merge-step
oracles are all successful. -/
def storesOf (results : List ChunkResult) (size_of : Nat → Nat) : List TempStore :=
  results.map (fun r =>
    { present := true, size := size_of r.storePath, rows := r.storeRows,
      attachOk := true, countOk := true, insertOk := true,
      detachOk := true, removeOk := true })

/-! Unvalidated-input model of the Chunk Planner, for the behavior of
get_file_chunks when total_rows is zero or negative. -/

/-- Errors Python raises out of get_file_chunks on bad input: division
by zero at line 67 when total_rows = 0, and the ValueError raised by
f.seek with a negative offset at line 78 when chunk_bytes is negative. -/
inductive PyError
  | zeroDivisionError
  | valueError
deriving DecidableEq

/-- Truncation toward zero, as Python's int() applied to an exact
quotient: the magnitude quotient with the sign of the operands. -/
def truncDiv (a b : Int) : Int :=
  Int.sign a * Int.sign b * (a.natAbs / b.natAbs : Nat)

/-- get_file_chunks (dataloader.py lines 64-88) with total_rows an
arbitrary integer and no validation, as in the source.  The float
expression int(file_size / total_rows * chunk_size) is modelled by the
exact rational value truncated toward zero.  With total_rows = 0 the
division raises ZeroDivisionError; with a negative derived chunk width
and a nonempty file, the first iteration seeks to a negative offset and
raises ValueError; otherwise the loop of chunksFrom runs as usual. -/
def get_file_chunks_checked (file : List Nat) (total_rows : Int) (chunk_size : Nat) :
    Except PyError (List (Nat × Nat)) :=
  if total_rows = 0 then
    .error .zeroDivisionError
  else
    if truncDiv ((file.length * chunk_size : Nat) : Int) total_rows < 0 then
      if file.length = 0 then .ok [] else .error .valueError
    else
      .ok (chunksFrom file (truncDiv ((file.length * chunk_size : Nat) : Int) total_rows).toNat 0)

/-! Index Builder model (faster_indexing.py, create_single_index). -/

/-- Tables of the index catalog: the target table domains and the
per-field temporary sample table sample_{field}_table.  The two name
families can never collide, whatever the field. -/
inductive TableName
  | domains
  | sample (field : String)
deriving DecidableEq

/-- Engine catalog state relevant to index creation: which tables exist
and which (table, field) pairs carry an index named idx_{field}.  The
temporary sample table lives in the engine's temporary catalog, so its
index does not collide with an index of the same name on domains. -/
structure Catalog where
  tables : List TableName
  indexes : List (TableName × String)
deriving DecidableEq

/-- CREATE TEMPORARY TABLE ... AS SELECT ... USING SAMPLE
(faster_indexing.py line 36). -/
def createTable (st : Catalog) (t : TableName) : Catalog :=
  { tables := t :: st.tables, indexes := st.indexes }

/-- CREATE INDEX IF NOT EXISTS idx_{field} ON table(field)
(faster_indexing.py lines 44 and 49). -/
def createIndexIfNotExists (st : Catalog) (t : TableName) (f : String) : Catalog :=
  if (t, f) ∈ st.indexes then st else { tables := st.tables, indexes := (t, f) :: st.indexes }

/-- DROP TABLE (faster_indexing.py line 50); dropping a table also
drops the indexes on it. -/
def dropTable (st : Catalog) (t : TableName) : Catalog :=
  { tables := st.tables.filter (fun u => u ≠ t),
    indexes := st.indexes.filter (fun p => p.1 ≠ t) }

/-- Engine statements issued by create_single_index, in order. -/
inductive IndexOp
  | createSampleTable (t : TableName)
  | createIndex (t : TableName) (f : String)
  | dropTable (t : TableName)
deriving DecidableEq

/-- create_single_index (faster_indexing.py lines 19-58) on the success
path, returning the catalog after the call and the trace of engine
statements issued: with sample_size < 1.0 it materializes the sample
table, builds the index on the sample, builds the real index on
domains, and drops the sample table; otherwise it builds the index on
domains directly. -/
def create_single_index (st : Catalog) (field : String) (sample_size : Rat) :
    Catalog × List IndexOp :=
  if sample_size < 1 then
    (dropTable
        (createIndexIfNotExists
          (createIndexIfNotExists (createTable st (TableName.sample field))
            (TableName.sample field) field)
          TableName.domains field)
        (TableName.sample field),
      [IndexOp.createSampleTable (TableName.sample field),
        IndexOp.createIndex (TableName.sample field) field,
        IndexOp.createIndex TableName.domains field,
        IndexOp.dropTable (TableName.sample field)])
  else
    (createIndexIfNotExists st TableName.domains field,
      [IndexOp.createIndex TableName.domains field])

/-! Basic facts about the newline scan. -/

theorem scanFrom_ge (l : List Nat) (pos : Nat) : pos ≤ scanFrom l pos := by
  induction l generalizing pos with
  | nil => simp [scanFrom]
  | cons b rest ih =>
    simp only [scanFrom]
    split
    · omega
    · exact Nat.le_trans (Nat.le_succ pos) (ih (pos + 1))

theorem scanFrom_le (l : List Nat) (pos : Nat) : scanFrom l pos ≤ pos + l.length := by
  induction l generalizing pos with
  | nil => simp [scanFrom]
  | cons b rest ih =>
    simp only [scanFrom, List.length_cons]
    split
    · omega
    · have := ih (pos + 1)
      omega

theorem scanFrom_gt (l : List Nat) (pos : Nat) (h : l ≠ []) : pos < scanFrom l pos := by
  cases l with
  | nil => exact absurd rfl h
  | cons b rest =>
    simp only [scanFrom]
    split
    · omega
    · exact Nat.lt_of_lt_of_le (Nat.lt_succ_self pos) (scanFrom_ge rest (pos + 1))

/-- Either the scan ran to the end of the suffix, or it stopped just past
a newline inside the suffix. -/
theorem scanFrom_spec (l : List Nat) (pos : Nat) :
    scanFrom l pos = pos + l.length ∨
      ∃ i : Fin l.length, l.get i = newline ∧ scanFrom l pos = pos + i.1 + 1 := by
  induction l generalizing pos with
  | nil => left; simp [scanFrom]
  | cons b rest ih =>
    simp only [scanFrom]
    by_cases hb : b = newline
    · right
      refine ⟨⟨0, by simp⟩, ?_, ?_⟩
      · simpa using hb
      · simp [hb]
    · rcases ih (pos + 1) with h | ⟨i, hget, heq⟩
      · left
        simp only [if_neg hb, h, List.length_cons]
        omega
      · right
        refine ⟨⟨i.1 + 1, Nat.succ_lt_succ i.2⟩, by simpa using hget, ?_⟩
        simp only [if_neg hb, heq]
        omega

theorem scanToNewline_ge (file : List Nat) (pos : Nat) :
    pos ≤ scanToNewline file pos :=
  scanFrom_ge _ _

theorem scanToNewline_le (file : List Nat) (pos : Nat) (h : pos ≤ file.length) :
    scanToNewline file pos ≤ file.length := by
  have := scanFrom_le (file.drop pos) pos
  simp only [List.length_drop] at this
  unfold scanToNewline
  omega

theorem scanToNewline_gt (file : List Nat) (pos : Nat) (h : pos < file.length) :
    pos < scanToNewline file pos := by
  apply scanFrom_gt
  intro hnil
  have : (file.drop pos).length = 0 := by rw [hnil]; rfl
  simp only [List.length_drop] at this
  omega

/-- If the scan stopped strictly inside the file, the byte just before
the stop position is a newline. -/
theorem scanToNewline_newline (file : List Nat) (pos : Nat) (hp : pos ≤ file.length)
    (h : scanToNewline file pos < file.length) :
    file.getD (scanToNewline file pos - 1) 0 = newline := by
  rcases scanFrom_spec (file.drop pos) pos with he | ⟨i, hget, heq⟩
  · exfalso
    unfold scanToNewline at h
    rw [he] at h
    simp only [List.length_drop] at h
    omega
  · have hi := i.2
    simp only [List.length_drop] at hi
    unfold scanToNewline
    rw [heq]
    have hstep : pos + i.1 + 1 - 1 = pos + i.1 := by omega
    rw [hstep]
    have hidx : pos + i.1 < file.length := by omega
    rw [List.getD_eq_getElem file 0 hidx]
    rw [List.getElem_drop' file hidx]
    rw [← List.get_eq_getElem]
    exact hget

/-! Facts about a single chunk boundary. -/

theorem chunkEnd_gt (file : List Nat) (cb start : Nat) (h : start < file.length) :
    start < chunkEnd file cb start := by
  unfold chunkEnd
  split
  · exact Nat.lt_of_le_of_lt (Nat.le_min.mpr ⟨Nat.le_add_right _ _, Nat.le_of_lt h⟩)
      (scanToNewline_gt file _ (by assumption))
  · omega

theorem chunkEnd_le (file : List Nat) (cb start : Nat) :
    chunkEnd file cb start ≤ file.length := by
  unfold chunkEnd
  split
  · exact scanToNewline_le file _ (Nat.min_le_right _ _)
  · exact Nat.min_le_right _ _

/-- A chunk end strictly inside the file lies just past a newline. -/
theorem chunkEnd_newline (file : List Nat) (cb start : Nat)
    (h : chunkEnd file cb start < file.length) :
    file.getD (chunkEnd file cb start - 1) 0 = newline := by
  unfold chunkEnd
  split
  · rename_i hc
    apply scanToNewline_newline file _ (Nat.min_le_right _ _)
    unfold chunkEnd at h
    rw [if_pos hc] at h
    exact h
  · rename_i hc
    exfalso
    unfold chunkEnd at h
    rw [if_neg hc] at h
    exact hc h

/-! Facts about the chunk loop.  The invariant is that with fuel at
least file.length - start, the fuel never runs out. -/

theorem chunksLoop_covers (file : List Nat) (cb : Nat) :
    ∀ (fuel start : Nat), start ≤ file.length → file.length - start ≤ fuel →
      coversExactlyFrom file start (chunksLoop file cb fuel start) = true := by
  intro fuel
  induction fuel with
  | zero =>
    intro start hs hf
    have : start = file.length := by omega
    simp [chunksLoop, coversExactlyFrom, this]
  | succ fuel ih =>
    intro start hs hf
    by_cases h : start < file.length
    · have hgt := chunkEnd_gt file cb start h
      have hle := chunkEnd_le file cb start
      simp only [chunksLoop, if_pos h, coversExactlyFrom, beq_self_eq_true, Bool.true_and,
        Bool.and_eq_true, decide_eq_true_eq]
      exact ⟨hgt, ih (chunkEnd file cb start) hle (by omega)⟩
    · have : start = file.length := by omega
      simp [chunksLoop, if_neg h, coversExactlyFrom, this]

theorem chunksLoop_join (file : List Nat) (cb : Nat) :
    ∀ (fuel start : Nat), start ≤ file.length → file.length - start ≤ fuel →
      ((chunksLoop file cb fuel start).map (slice file)).flatten = file.drop start := by
  intro fuel
  induction fuel with
  | zero =>
    intro start hs hf
    have h : start = file.length := by omega
    simp [chunksLoop, h, List.drop_length]
  | succ fuel ih =>
    intro start hs hf
    by_cases h : start < file.length
    · have hgt := chunkEnd_gt file cb start h
      have hle := chunkEnd_le file cb start
      simp only [chunksLoop, if_pos h, List.map_cons, List.flatten_cons]
      rw [ih (chunkEnd file cb start) hle (by omega)]
      unfold slice
      have hdrop : file.drop (chunkEnd file cb start)
          = (file.drop start).drop (chunkEnd file cb start - start) := by
        rw [List.drop_drop]
        congr 1
        omega
      rw [hdrop]
      exact List.take_append_drop _ _
    · have heq : start = file.length := by omega
      simp [chunksLoop, if_neg h, heq, List.drop_length]

theorem chunksLoop_bounds (file : List Nat) (cb : Nat) :
    ∀ (fuel start : Nat),
      ∀ c ∈ chunksLoop file cb fuel start, c.1 < c.2 ∧ c.2 ≤ file.length := by
  intro fuel
  induction fuel with
  | zero => intro start c hc; simp [chunksLoop] at hc
  | succ fuel ih =>
    intro start c hc
    simp only [chunksLoop] at hc
    split at hc
    · rcases List.mem_cons.mp hc with h | h
      · subst h
        exact ⟨chunkEnd_gt file cb start (by assumption), chunkEnd_le file cb start⟩
      · exact ih _ c h
    · simp at hc

theorem chunksLoop_length (file : List Nat) (cb : Nat) :
    ∀ (fuel start : Nat), start ≤ file.length →
      (chunksLoop file cb fuel start).length ≤ file.length - start := by
  intro fuel
  induction fuel with
  | zero => intro start hs; simp [chunksLoop]
  | succ fuel ih =>
    intro start hs
    simp only [chunksLoop]
    split
    · have hgt := chunkEnd_gt file cb start (by assumption)
      have hle := chunkEnd_le file cb start
      have := ih (chunkEnd file cb start) hle
      simp only [List.length_cons]
      omega
    · simp

/-- Fuel irrelevance: any fuel at least file.length - start computes the
same chunk list, because the cursor strictly advances; this is the
termination argument for the source's while loop. -/
theorem chunksLoop_fuel (file : List Nat) (cb : Nat) :
    ∀ (fuel fuel' start : Nat), start ≤ file.length →
      file.length - start ≤ fuel → file.length - start ≤ fuel' →
      chunksLoop file cb fuel start = chunksLoop file cb fuel' start := by
  intro fuel
  induction fuel with
  | zero =>
    intro fuel' start hs hf hf'
    have h : start = file.length := by omega
    cases fuel' with
    | zero => rfl
    | succ f => simp [chunksLoop, h]
  | succ fuel ih =>
    intro fuel' start hs hf hf'
    by_cases h : start < file.length
    · cases fuel' with
      | zero => omega
      | succ f =>
        have hgt := chunkEnd_gt file cb start h
        have hle := chunkEnd_le file cb start
        simp only [chunksLoop, if_pos h]
        rw [ih f (chunkEnd file cb start) hle (by omega) (by omega)]
    · cases fuel' with
      | zero =>
        have : start = file.length := by omega
        simp [chunksLoop, this]
      | succ f => simp [chunksLoop, if_neg h]

/-- All non-final chunks end just past a newline. -/
theorem chunksLoop_row_safe (file : List Nat) (cb : Nat) :
    ∀ (fuel start : Nat),
      ∀ c ∈ (chunksLoop file cb fuel start).dropLast,
        file.getD (c.2 - 1) 0 = newline := by
  intro fuel
  induction fuel with
  | zero => intro start c hc; simp [chunksLoop] at hc
  | succ fuel ih =>
    intro start c hc
    simp only [chunksLoop] at hc
    split at hc
    · rcases hrest : chunksLoop file cb fuel (chunkEnd file cb start) with _ | ⟨r, rs⟩
      · rw [hrest] at hc
        simp at hc
      · rw [hrest, List.dropLast_cons_of_ne_nil (by simp)] at hc
        rcases List.mem_cons.mp hc with h | h
        · subst h
          apply chunkEnd_newline
          by_contra hend
          have hge : file.length ≤ chunkEnd file cb start := by omega
          have : chunksLoop file cb fuel (chunkEnd file cb start) = [] := by
            cases fuel with
            | zero => rfl
            | succ f =>
              simp [chunksLoop, Nat.not_lt.mpr hge]
          rw [this] at hrest
          exact absurd hrest (by simp)
        · have := ih (chunkEnd file cb start) c
          rw [hrest] at this
          exact this h
    · simp at hc

/-! Helper lemmas for the loader and merger claims. -/

theorem slice_ne_nil (file : List Nat) (c : Nat × Nat) (h1 : c.1 < c.2)
    (h2 : c.2 ≤ file.length) : slice file c ≠ [] := by
  have hlen : (slice file c).length = min (c.2 - c.1) (file.length - c.1) := by
    unfold slice
    simp [List.length_take, List.length_drop]
  intro hnil
  rw [hnil] at hlen
  simp only [List.length_nil] at hlen
  omega

theorem getLast?_eq_getD (l : List Nat) (h : l ≠ []) :
    l.getLast? = some (l.getD (l.length - 1) 0) := by
  induction l with
  | nil => exact absurd rfl h
  | cons a t ih =>
    cases t with
    | nil => rfl
    | cons b u =>
      rw [List.getLast?_cons_cons, ih (by simp)]
      have h1 : (a :: b :: u).length - 1 = ((b :: u).length - 1) + 1 := by
        simp
      rw [h1, List.getD_cons_succ]

theorem countRows_pos (data : List Nat) (h : data ≠ []) : 0 < countRows data := by
  unfold countRows
  split
  · rename_i hlast
    have hmem : newline ∈ data := List.mem_of_getLast?_eq_some hlast
    have := List.count_pos_iff.mpr hmem
    omega
  · omega

theorem csvRecordCount_eq (data : List Nat) (h : data ≠ []) :
    csvRecordCount data = countRows data := by
  unfold csvRecordCount
  rw [if_neg h]

theorem mem_enumFrom_snd {α : Type} (l : List α) :
    ∀ (n : Nat) (p : Nat × α), p ∈ l.enumFrom n → p.2 ∈ l := by
  induction l with
  | nil => intro n p hp; simp [List.enumFrom] at hp
  | cons a t ih =>
    intro n p hp
    rw [List.enumFrom] at hp
    rcases List.mem_cons.mp hp with h | h
    · subst h; simp
    · exact List.mem_cons_of_mem _ (ih (n + 1) p h)

theorem get_file_chunks_bounds (file : List Nat) (total_rows chunk_size : Nat) :
    ∀ c ∈ get_file_chunks file total_rows chunk_size, c.1 < c.2 ∧ c.2 ≤ file.length := by
  intro c hc
  unfold get_file_chunks chunksFrom at hc
  exact chunksLoop_bounds file _ _ 0 c hc

theorem process_chunk_all_ok (file : List Nat) (chunkId : Nat) (c : Nat × Nat) :
    process_chunk file chunkId c true true true =
      { rows := countRows (slice file c), storePath := chunkId,
        storeRows := csvRecordCount (slice file c), scratchExists := false } := rfl

/-- Abstract form of the reconciliation invariant: when every loader
result carries a positive row count that agrees with the rows landed in
its store, and every store file is viable, merging the collected stores
returns exactly the sum of the reported row counts. -/
theorem merge_reconciles (size_of : Nat → Nat)
    (hsz : ∀ id, viability_threshold ≤ size_of id) :
    ∀ results : List ChunkResult,
      (∀ r ∈ results, 0 < r.rows ∧ r.storeRows = r.rows) →
      merge_temp_databases (storesOf (collectTempDbs results) size_of)
        = rows_processed results := by
  intro results
  induction results with
  | nil => intro _; rfl
  | cons r rs ih =>
    intro hall
    have hr := hall r (List.mem_cons_self r rs)
    have hcollect : collectTempDbs (r :: rs) = r :: collectTempDbs rs := by
      unfold collectTempDbs
      rw [List.filter_cons_of_pos]
      simpa using hr.1
    have hstore : mergeStore
        { present := true, size := size_of r.storePath, rows := r.storeRows,
          attachOk := true, countOk := true, insertOk := true,
          detachOk := true, removeOk := true } =
        { rowsAdded := r.storeRows, attached := true, deleted := true } := by
      unfold mergeStore
      rw [if_neg (by
        rintro (hp | hs)
        · simp at hp
        · exact Nat.not_lt.mpr (hsz r.storePath) hs)]
      simp
    rw [hcollect]
    unfold merge_temp_databases storesOf rows_processed
    simp only [List.map_cons, List.sum_cons, hstore]
    have hrest := ih (fun x hx => hall x (List.mem_cons_of_mem r hx))
    unfold merge_temp_databases storesOf rows_processed at hrest
    rw [hrest, hr.2]

/-! Claim theorems. -/

/-- C1: for every input file, positive expected row count and positive
target rows-per-chunk, the chunk list returned by get_file_chunks
partitions the byte interval from 0 to file size exactly: the ranges
are in ascending order, contiguous, non-overlapping, and cover the
whole file, and concatenating the byte ranges of all chunks in id order
reproduces the original file exactly. -/
theorem get_file_chunks_partition_exact (file : List Nat) (total_rows chunk_size : Nat)
    (h1 : 0 < total_rows) (h2 : 0 < chunk_size) :
    coversExactlyFrom file 0 (get_file_chunks file total_rows chunk_size) = true ∧
    ((get_file_chunks file total_rows chunk_size).map (slice file)).flatten = file := by
  unfold get_file_chunks chunksFrom
  constructor
  · exact chunksLoop_covers file _ _ 0 (Nat.zero_le _) (by omega)
  · rw [chunksLoop_join file _ _ 0 (Nat.zero_le _) (by omega)]
    exact List.drop_zero file

theorem get_file_chunks_partition_exact_witness :
    0 < 3 ∧ 0 < 1 ∧
    (coversExactlyFrom [100, 10, 101, 10, 102] 0 (get_file_chunks [100, 10, 101, 10, 102] 3 1) = true ∧
      ((get_file_chunks [100, 10, 101, 10, 102] 3 1).map (slice [100, 10, 101, 10, 102])).flatten
        = [100, 10, 101, 10, 102]) :=
  ⟨by decide, by decide,
    get_file_chunks_partition_exact [100, 10, 101, 10, 102] 3 1 (by decide) (by decide)⟩

/-- C2: for every chunk returned by the Chunk Planner except the last,
end_offset lies immediately after a newline byte of the file, so no
record is split across two chunks. -/
theorem get_file_chunks_row_safe (file : List Nat) (total_rows chunk_size : Nat)
    (h1 : 0 < total_rows) (h2 : 0 < chunk_size) :
    ∀ c ∈ (get_file_chunks file total_rows chunk_size).dropLast,
      file.getD (c.2 - 1) 0 = newline := by
  intro c hc
  unfold get_file_chunks chunksFrom at hc
  exact chunksLoop_row_safe file _ _ 0 c hc

theorem get_file_chunks_row_safe_witness :
    0 < 3 ∧ 0 < 1 ∧
    ∀ c ∈ (get_file_chunks [100, 10, 101, 10, 102] 3 1).dropLast,
      ([100, 10, 101, 10, 102] : List Nat).getD (c.2 - 1) 0 = newline :=
  ⟨by decide, by decide,
    get_file_chunks_row_safe [100, 10, 101, 10, 102] 3 1 (by decide) (by decide)⟩

/-- C10: for every file and every positive expected row count and
target rows-per-chunk, the Chunk Planner terminates and returns a
finite chunk list, even when the derived chunk byte width rounds down
to zero: any fuel of at least the file size computes the same list (the
while loop exits before consuming it, because the cursor strictly
advances on every iteration), every chunk strictly advances the cursor,
and the list holds at most file-size many chunks. -/
theorem get_file_chunks_terminating (file : List Nat) (total_rows chunk_size fuel : Nat)
    (h1 : 0 < total_rows) (h2 : 0 < chunk_size) (hfuel : file.length ≤ fuel) :
    chunksLoop file (chunkBytes file.length total_rows chunk_size) fuel 0
        = get_file_chunks file total_rows chunk_size ∧
    (∀ c ∈ get_file_chunks file total_rows chunk_size, c.1 < c.2) ∧
    (get_file_chunks file total_rows chunk_size).length ≤ file.length := by
  unfold get_file_chunks chunksFrom
  refine ⟨?_, ?_, ?_⟩
  · exact chunksLoop_fuel file _ fuel (file.length - 0) 0 (Nat.zero_le _) (by omega) (by omega)
  · intro c hc
    exact (chunksLoop_bounds file _ _ 0 c hc).1
  · have := chunksLoop_length file (chunkBytes file.length total_rows chunk_size)
      (file.length - 0) 0 (Nat.zero_le _)
    omega

theorem get_file_chunks_terminating_witness :
    0 < 5 ∧ 0 < 1 ∧ ([97, 98] : List Nat).length ≤ 2 ∧
    chunkBytes ([97, 98] : List Nat).length 5 1 = 0 ∧
    (chunksLoop [97, 98] (chunkBytes ([97, 98] : List Nat).length 5 1) 2 0
        = get_file_chunks [97, 98] 5 1 ∧
      (∀ c ∈ get_file_chunks [97, 98] 5 1, c.1 < c.2) ∧
      (get_file_chunks [97, 98] 5 1).length ≤ ([97, 98] : List Nat).length) :=
  ⟨by decide, by decide, by decide, by decide,
    get_file_chunks_terminating [97, 98] 5 1 2 (by decide) (by decide) (by decide)⟩

/-- C4, counterexample: the claim that get_file_chunks fails (with a
ConfigError) whenever expected_row_count is nonpositive, aborting
before any chunk is produced, is false: with a one-byte file,
total_rows = -2 and chunk_size = 1 the derived chunk byte width
truncates to zero, no exception is raised, and a full chunk list is
returned. -/
theorem planner_config_error_cx :
    get_file_chunks_checked [97] (-2) 1 = .ok [(0, 1)] := rfl

/-- C4, amended: get_file_chunks performs no validation and raises no
ConfigError.  With expected_row_count = 0 it aborts with an unhandled
ZeroDivisionError before producing any chunk; with a negative
expected_row_count it aborts with a ValueError from a negative seek
when the derived chunk byte width is negative and the file is
nonempty, but when that width truncates to zero it succeeds and
returns chunks. -/
theorem planner_unvalidated_behavior :
    (∀ (file : List Nat) (chunk_size : Nat),
      get_file_chunks_checked file 0 chunk_size = .error .zeroDivisionError) ∧
    (∀ (file : List Nat) (total_rows : Int) (chunk_size : Nat),
      total_rows ≠ 0 →
      truncDiv ((file.length * chunk_size : Nat) : Int) total_rows < 0 →
      file ≠ [] →
      get_file_chunks_checked file total_rows chunk_size = .error .valueError) ∧
    get_file_chunks_checked [97] (-2) 1 = .ok [(0, 1)] := by
  refine ⟨?_, ?_, rfl⟩
  · intro file chunk_size
    unfold get_file_chunks_checked
    rw [if_pos rfl]
  · intro file total_rows chunk_size htr hneg hne
    unfold get_file_chunks_checked
    rw [if_neg htr, if_pos hneg,
      if_neg (fun h => hne (List.length_eq_zero.mp h))]

theorem planner_unvalidated_behavior_witness :
    get_file_chunks_checked [97] 0 1 = .error .zeroDivisionError ∧
    get_file_chunks_checked [97] (-1) 1 = .error .valueError :=
  ⟨planner_unvalidated_behavior.1 [97] 1,
    planner_unvalidated_behavior.2.1 [97] (-1) 1 (by decide) (by decide) (by decide)⟩

/-- C5: for every chunk produced by the planner (hence nonempty) and
read successfully, the Chunk Loader's returned row count equals the
number of newline bytes in the chunk's bytes, plus one if the final
byte of the chunk is not a newline. -/
theorem chunk_loader_row_count (file : List Nat) (total_rows chunk_size : Nat)
    (h1 : 0 < total_rows) (h2 : 0 < chunk_size) :
    ∀ c ∈ get_file_chunks file total_rows chunk_size, ∀ chunkId : Nat,
      slice file c ≠ [] ∧
      (process_chunk file chunkId c true true true).rows =
        (slice file c).count newline +
          (if (slice file c).getD ((slice file c).length - 1) 0 = newline then 0 else 1) := by
  intro c hc chunkId
  have hb := get_file_chunks_bounds file total_rows chunk_size c hc
  have hne := slice_ne_nil file c hb.1 hb.2
  refine ⟨hne, ?_⟩
  rw [process_chunk_all_ok]
  unfold countRows
  rw [getLast?_eq_getD (slice file c) hne]
  simp only [Option.some.injEq]

theorem chunk_loader_row_count_witness :
    0 < 3 ∧ 0 < 1 ∧ (0, 2) ∈ get_file_chunks [100, 10, 101] 3 1 ∧
    (slice [100, 10, 101] (0, 2) ≠ [] ∧
      (process_chunk [100, 10, 101] 0 (0, 2) true true true).rows =
        (slice [100, 10, 101] (0, 2)).count newline +
          (if (slice [100, 10, 101] (0, 2)).getD
              ((slice [100, 10, 101] (0, 2)).length - 1) 0 = newline then 0 else 1)) :=
  ⟨by decide, by decide, by decide,
    chunk_loader_row_count [100, 10, 101] 3 1 (by decide) (by decide) (0, 2) (by decide) 0⟩

/-- C6: whenever extraction or bulk-load fails, the Chunk Loader
returns rows = 0 and still returns the intermediate store path; on
every exit path, successful or not, the scratch extraction file is
gone when the call returns; and a zero-row result is excluded from the
list of stores handed to the merge. -/
theorem chunk_loader_failure_policy (file : List Nat) (chunkId : Nat) (c : Nat × Nat)
    (readOk writeOk copyOk : Bool) (results : List ChunkResult)
    (hfail : readOk = false ∨ writeOk = false ∨ copyOk = false) :
    (process_chunk file chunkId c readOk writeOk copyOk).rows = 0 ∧
    (process_chunk file chunkId c readOk writeOk copyOk).storePath = chunkId ∧
    (∀ ro wo co : Bool, (process_chunk file chunkId c ro wo co).scratchExists = false) ∧
    (∀ r ∈ results, r.rows = 0 → r ∉ collectTempDbs results) := by
  refine ⟨?_, ?_, ?_, ?_⟩
  · cases readOk <;> cases writeOk <;> cases copyOk <;> simp_all [process_chunk]
  · cases readOk <;> cases writeOk <;> cases copyOk <;> simp [process_chunk]
  · intro ro wo co
    cases ro <;> cases wo <;> cases co <;> simp [process_chunk]
  · intro r hr h0 hmem
    have hp := (List.mem_filter.mp hmem).2
    simp only [decide_eq_true_eq] at hp
    omega

theorem chunk_loader_failure_policy_witness :
    ((false : Bool) = false ∨ (true : Bool) = false ∨ (true : Bool) = false) ∧
    ((process_chunk [100, 10] 0 (0, 2) false true true).rows = 0 ∧
      (process_chunk [100, 10] 0 (0, 2) false true true).storePath = 0 ∧
      (∀ ro wo co : Bool, (process_chunk [100, 10] 0 (0, 2) ro wo co).scratchExists = false) ∧
      (∀ r ∈ [(⟨0, 0, 0, false⟩ : ChunkResult)],
        r.rows = 0 → r ∉ collectTempDbs [(⟨0, 0, 0, false⟩ : ChunkResult)])) :=
  ⟨Or.inl rfl,
    chunk_loader_failure_policy [100, 10] 0 (0, 2) false true true
      [(⟨0, 0, 0, false⟩ : ChunkResult)] (Or.inl rfl)⟩

/-- C7: an intermediate store whose backing file is missing or whose
on-disk size is below the minimum-viability threshold is skipped
without error: it is never attached or merged, contributes no rows to
the total, is not deleted, and the remaining stores are unaffected. -/
theorem merger_viability_filter (s : TempStore) (rest : List TempStore)
    (h : s.present = false ∨ s.size < viability_threshold) :
    mergeStore s = { rowsAdded := 0, attached := false, deleted := false } ∧
    merge_temp_databases (s :: rest) = merge_temp_databases rest := by
  have h1 : mergeStore s = { rowsAdded := 0, attached := false, deleted := false } := by
    unfold mergeStore
    rw [if_pos h]
  refine ⟨h1, ?_⟩
  unfold merge_temp_databases
  simp [h1]

theorem merger_viability_filter_witness :
    ((⟨false, 2000, 5, true, true, true, true, true⟩ : TempStore).present = false ∨
      (⟨false, 2000, 5, true, true, true, true, true⟩ : TempStore).size < viability_threshold) ∧
    (mergeStore ⟨false, 2000, 5, true, true, true, true, true⟩ = ⟨0, false, false⟩ ∧
      merge_temp_databases
          [(⟨false, 2000, 5, true, true, true, true, true⟩ : TempStore),
            ⟨true, 2000, 3, true, true, true, true, true⟩] =
        merge_temp_databases [(⟨true, 2000, 3, true, true, true, true, true⟩ : TempStore)]) :=
  ⟨Or.inl rfl,
    merger_viability_filter ⟨false, 2000, 5, true, true, true, true, true⟩
      [(⟨true, 2000, 3, true, true, true, true, true⟩ : TempStore)] (Or.inl rfl)⟩

/-- C8: a viable store on which ATTACH, COUNT or INSERT fails is caught
and skipped: it contributes no rows to the total, its backing file is
not deleted, and the remaining stores are processed unaffected; and in
general a store's file is deleted only when its rows were successfully
inserted into the target. -/
theorem merger_failure_skip (s : TempStore) (rest : List TempStore)
    (hviable : s.present = true ∧ viability_threshold ≤ s.size)
    (hfail : s.attachOk = false ∨ s.countOk = false ∨ s.insertOk = false) :
    (mergeStore s).rowsAdded = 0 ∧ (mergeStore s).deleted = false ∧
    merge_temp_databases (s :: rest) = merge_temp_databases rest ∧
    (∀ t : TempStore, (mergeStore t).deleted = true → t.insertOk = true) := by
  have hskip : ¬(s.present = false ∨ s.size < viability_threshold) := by
    rintro (hp | hs)
    · rw [hviable.1] at hp
      exact Bool.noConfusion hp
    · exact Nat.not_lt.mpr hviable.2 hs
  have houtcome : (mergeStore s).rowsAdded = 0 ∧ (mergeStore s).deleted = false := by
    unfold mergeStore
    rw [if_neg hskip]
    by_cases ha : s.attachOk = false
    · rw [if_pos ha]
      exact ⟨rfl, rfl⟩
    · rw [if_neg ha]
      by_cases hc : s.countOk = false
      · rw [if_pos hc]
        exact ⟨rfl, rfl⟩
      · rw [if_neg hc]
        have hi : s.insertOk = false := by
          rcases hfail with h | h | h
          · exact absurd h ha
          · exact absurd h hc
          · exact h
        rw [if_pos hi]
        exact ⟨rfl, rfl⟩
  refine ⟨houtcome.1, houtcome.2, ?_, ?_⟩
  · unfold merge_temp_databases
    simp [houtcome.1]
  · intro t ht
    unfold mergeStore at ht
    split at ht
    · exact Bool.noConfusion ht
    · split at ht
      · exact Bool.noConfusion ht
      · split at ht
        · exact Bool.noConfusion ht
        · split at ht
          · exact Bool.noConfusion ht
          · rename_i hins
            simpa using hins

theorem merger_failure_skip_witness :
    ((⟨true, 1000, 7, false, true, true, true, true⟩ : TempStore).present = true ∧
      viability_threshold ≤ (⟨true, 1000, 7, false, true, true, true, true⟩ : TempStore).size) ∧
    ((mergeStore ⟨true, 1000, 7, false, true, true, true, true⟩).rowsAdded = 0 ∧
      (mergeStore ⟨true, 1000, 7, false, true, true, true, true⟩).deleted = false ∧
      merge_temp_databases
          [(⟨true, 1000, 7, false, true, true, true, true⟩ : TempStore),
            ⟨true, 1000, 3, true, true, true, true, true⟩] =
        merge_temp_databases [(⟨true, 1000, 3, true, true, true, true, true⟩ : TempStore)] ∧
      (∀ t : TempStore, (mergeStore t).deleted = true → t.insertOk = true)) :=
  ⟨⟨rfl, by decide⟩,
    merger_failure_skip ⟨true, 1000, 7, false, true, true, true, true⟩
      [(⟨true, 1000, 3, true, true, true, true, true⟩ : TempStore)]
      ⟨rfl, by decide⟩ (Or.inl rfl)⟩

/-- C3: in a run of the chunked pipeline in which every Chunk Loader
call and every merge step succeeds (and every created store file meets
the viability threshold), the total returned by the Store Merger equals
the sum of rows_loaded across all Chunk Loader calls. -/
theorem pipeline_rows_reconcile (file : List Nat) (total_rows chunk_size : Nat)
    (size_of : Nat → Nat)
    (h1 : 0 < total_rows) (h2 : 0 < chunk_size)
    (hsz : ∀ id, viability_threshold ≤ size_of id) :
    merge_temp_databases
        (storesOf (collectTempDbs (pipelineResults file total_rows chunk_size)) size_of)
      = rows_processed (pipelineResults file total_rows chunk_size) := by
  apply merge_reconciles size_of hsz
  intro r hr
  unfold pipelineResults at hr
  obtain ⟨p, hp, rfl⟩ := List.mem_map.mp hr
  have hmem : p.2 ∈ get_file_chunks file total_rows chunk_size := by
    unfold List.enum at hp
    exact mem_enumFrom_snd _ 0 p hp
  have hb := get_file_chunks_bounds file total_rows chunk_size p.2 hmem
  have hne := slice_ne_nil file p.2 hb.1 hb.2
  rw [process_chunk_all_ok]
  constructor
  · exact countRows_pos _ hne
  · exact csvRecordCount_eq _ hne

theorem pipeline_rows_reconcile_witness :
    0 < 3 ∧ 0 < 1 ∧ (∀ id : Nat, viability_threshold ≤ (fun _ => 1000) id) ∧
    merge_temp_databases
        (storesOf (collectTempDbs (pipelineResults [100, 10, 101] 3 1)) (fun _ => 1000))
      = rows_processed (pipelineResults [100, 10, 101] 3 1) :=
  ⟨by decide, by decide, fun _ => Nat.le_refl 1000,
    pipeline_rows_reconcile [100, 10, 101] 3 1 (fun _ => 1000)
      (by decide) (by decide) (fun _ => Nat.le_refl 1000)⟩

/-- C9: for every index build with sample_fraction below one, the Index
Builder issues, in order: materialize the temporary sample table, build
the index on the sample, build the real index on the full domains
table, and drop the sample table; afterward the full table carries the
index, while the sample table and any index on it are gone. -/
theorem index_builder_sampled (st : Catalog) (field : String) (sample_size : Rat)
    (h : sample_size < 1) :
    (create_single_index st field sample_size).2 =
      [IndexOp.createSampleTable (TableName.sample field),
        IndexOp.createIndex (TableName.sample field) field,
        IndexOp.createIndex TableName.domains field,
        IndexOp.dropTable (TableName.sample field)] ∧
    (TableName.domains, field) ∈ (create_single_index st field sample_size).1.indexes ∧
    TableName.sample field ∉ (create_single_index st field sample_size).1.tables ∧
    (∀ f : String, (TableName.sample field, f) ∉ (create_single_index st field sample_size).1.indexes) := by
  have hmemidx : ∀ (st0 : Catalog) (t : TableName) (f : String),
      (t, f) ∈ (createIndexIfNotExists st0 t f).indexes := by
    intro st0 t f
    unfold createIndexIfNotExists
    split
    · assumption
    · exact List.mem_cons_self _ _
  unfold create_single_index
  rw [if_pos h]
  refine ⟨rfl, ?_, ?_, ?_⟩
  · unfold dropTable
    apply List.mem_filter.mpr
    refine ⟨hmemidx _ _ _, ?_⟩
    exact decide_eq_true (fun hx => TableName.noConfusion hx)
  · intro hmem
    unfold dropTable at hmem
    have := (List.mem_filter.mp hmem).2
    simp at this
  · intro f hmem
    unfold dropTable at hmem
    have := (List.mem_filter.mp hmem).2
    simp at this

theorem index_builder_sampled_witness :
    ((1 : Rat) / 2 < 1) ∧
    ((create_single_index { tables := [TableName.domains], indexes := [] } "" ((1 : Rat) / 2)).2 =
      [IndexOp.createSampleTable (TableName.sample ""),
        IndexOp.createIndex (TableName.sample "") "",
        IndexOp.createIndex TableName.domains "",
        IndexOp.dropTable (TableName.sample "")] ∧
    (TableName.domains, "") ∈
      (create_single_index { tables := [TableName.domains], indexes := [] } "" ((1 : Rat) / 2)).1.indexes ∧
    TableName.sample "" ∉
      (create_single_index { tables := [TableName.domains], indexes := [] } "" ((1 : Rat) / 2)).1.tables ∧
    (∀ f : String, (TableName.sample "", f) ∉
      (create_single_index { tables := [TableName.domains], indexes := [] } "" ((1 : Rat) / 2)).1.indexes)) :=
  ⟨by norm_num,
    index_builder_sampled { tables := [TableName.domains], indexes := [] } "" ((1 : Rat) / 2)
      (by norm_num)⟩

end DomainLoader
